import Mathlib

/-!
# Verification of the `price_agents` planning and valuation core

Shallow embedding of `src/segment4/price_agents/autonomous_planning_agent.py`
and `src/segment4/price_agents/frontier_agent.py`.

Modelling conventions:
* Python floats are modelled as exact rationals (`ℚ`), matching the spec's
  talk of real-valued prices.
* External collaborators (scanner, the two estimators, the completion
  service, the notification transport) are oracles: their outcomes are
  supplied as explicit `Except Unit` values inside each capability
  invocation, so a raised collaborator error is `Except.error ()`.
* The autonomous decision process is opaque: a run is driven by an
  arbitrary script (list) of capability invocations, exactly the calls the
  decision process chooses to make, in order.
* Python exception semantics: a raised error stops the run, mutations made
  before the raise persist.  `runScript` therefore returns the state at the
  moment of the error together with the error.
-/

namespace Tech2AI

/-! ## `FrontierAgent.get_price`: the numeral parser

Python source:
```
s = s.replace("$", "").replace(",", "")
match = re.search(r"[-+]?\d*\.\d+|\d+", s)
return float(match.group()) if match else 0.0
```
The regex alternation is resolved as Python does: leftmost match position
wins, and at a given position the float alternative `[-+]?\d*\.\d+` is
tried before the integer alternative `\d+`.  Backtracking inside the float
alternative never produces a match that greedy matching misses (a shorter
digit run still faces a digit where `.` is required), so greedy matching
is exact here.
-/

/-- Value of a digit string, most significant first (leading zeros fine). -/
def digitsToNat (ds : List Char) : Nat :=
  ds.foldl (fun n c => 10 * n + (c.toNat - 48)) 0

/-- Try the regex alternative `[-+]?\d*\.\d+` anchored at the head of `s`;
return the matched characters. -/
def matchFloatAt (s : List Char) : Option (List Char) :=
  let s1 := if s.head? = some '-' ∨ s.head? = some '+' then s.tail else s
  let ds := s1.takeWhile Char.isDigit
  let s2 := s1.dropWhile Char.isDigit
  match s2 with
  | '.' :: s3 =>
    let fs := s3.takeWhile Char.isDigit
    if fs = [] then none
    else some ((if s.head? = some '-' ∨ s.head? = some '+' then s.take 1 else []) ++
      ds ++ '.' :: fs)
  | _ => none

/-- Try the regex alternative `\d+` anchored at the head of `s`. -/
def matchIntAt (s : List Char) : Option (List Char) :=
  match s with
  | c :: _ => if c.isDigit then some (s.takeWhile Char.isDigit) else none
  | [] => none

/-- `re.search` over the whole string: first position (left to right) where
either alternative matches, float alternative preferred at equal position. -/
def searchNumber : List Char → Option (List Char)
  | [] => none
  | c :: rest =>
    match matchFloatAt (c :: rest) with
    | some m => some m
    | none =>
      match matchIntAt (c :: rest) with
      | some m => some m
      | none => searchNumber rest

/-- Python `float` applied to a matched token: optional sign, integer part,
optional `.` and fractional part.  Exact rational value. -/
def parseToken (t : List Char) : ℚ :=
  let sgn : ℚ := if t.head? = some '-' then -1 else 1
  let t1 := if t.head? = some '-' ∨ t.head? = some '+' then t.tail else t
  let ip := t1.takeWhile (fun c => c ≠ '.')
  let rest := t1.dropWhile (fun c => c ≠ '.')
  match rest with
  | _ :: fp =>
    sgn * ((digitsToNat ip : ℚ) + (digitsToNat fp : ℚ) / (10 : ℚ) ^ fp.length)
  | [] => sgn * (digitsToNat ip : ℚ)

/-- `s.replace("$", "").replace(",", "")` as a character filter. -/
def cleanChars (s : String) : List Char :=
  s.data.filter (fun c => c != '$' && c != ',')

namespace FrontierAgent

/-- `FrontierAgent.get_price`: pluck a floating point number out of a
string, defaulting to `0.0` when no numeral matches. -/
def get_price (s : String) : ℚ :=
  match searchNumber (cleanChars s) with
  | some t => parseToken t
  | none => 0

/-- `FrontierAgent.price`, as a function of the completion service's
textual reply (the retrieval and prompting steps only shape the prompt;
the returned value is exactly `get_price(reply)`). -/
def price (reply : String) : ℚ :=
  get_price reply

end FrontierAgent

/-! ## The planning orchestrator

`autonomous_planning_agent.py`.  The mutable per-run state of the planner
is its `memory` and `opportunity` fields; the collaborator agents
(scanner, frontier, specialist, messenger) are stateless oracles whose
outcomes are carried inside each `ToolCall`.
-/

/-- `price_agents.deals.Deal` as constructed by `notify_user_of_deal`. -/
structure Deal where
  product_description : String
  price : ℚ
  url : String
deriving DecidableEq, Repr

/-- `price_agents.deals.Opportunity`. -/
structure Opportunity where
  deal : Deal
  estimate : ℚ
  discount : ℚ
deriving DecidableEq, Repr

/-- The planner's per-run mutable state (`self.memory`, `self.opportunity`). -/
structure PlannerState where
  memory : List String
  opportunity : Option Opportunity
deriving DecidableEq, Repr

/-- The record serialized by `estimate_true_value`
(`{"description": ..., "estimated_true_value": ...}`). -/
structure EstimateResult where
  description : String
  estimated_true_value : ℚ
deriving DecidableEq, Repr

/-- `estimate_true_value` tool body, as a function of the two estimators'
returned values: the mean of the two, packaged with the description. -/
def estimate_true_value (description : String) (estimate1 estimate2 : ℚ) :
    EstimateResult :=
  let estimate := (estimate1 + estimate2) / 2
  { description := description, estimated_true_value := estimate }

/-- `scan_the_internet_for_bargains` tool body.  `scanResult` is the
scanner oracle's outcome: an error, nothing (`None`/falsy, serialized as
the empty-string sentinel), or serialized results. -/
def scan_the_internet_for_bargains (planner : PlannerState)
    (scanResult : Except Unit (Option String)) :
    PlannerState × Except Unit String :=
  match scanResult with
  | .error e => (planner, .error e)
  | .ok none => (planner, .ok "")
  | .ok (some serialized) => (planner, .ok serialized)

/-- `notify_user_of_deal` tool body.  `transport` is the outcome of the
`messenger.notify` call, which in the source happens before the `Deal` and
`Opportunity` are constructed and stored.  Returns the state after the
call, the result-or-error, and whether the transport was invoked. -/
def notify_user_of_deal (planner : PlannerState) (description : String)
    (deal_price estimated_true_value : ℚ) (url : String)
    (transport : Except Unit Unit) :
    PlannerState × Except Unit String × Bool :=
  match planner.opportunity with
  | some _ => (planner, .ok "notification sent", false)
  | none =>
    match transport with
    | .error e => (planner, .error e, true)
    | .ok _ =>
      let deal : Deal :=
        { product_description := description, price := deal_price, url := url }
      let discount := estimated_true_value - deal_price
      ({ planner with
          opportunity := some
            { deal := deal, estimate := estimated_true_value, discount := discount } },
       .ok "notification sent", true)

/-- One capability invocation chosen by the decision process, with the
oracle outcomes of the collaborators it touches embedded. -/
inductive ToolCall where
  | scan (scanResult : Except Unit (Option String))
  | estimate (description : String) (estimate1 estimate2 : Except Unit ℚ)
  | notify (description : String) (deal_price estimated_true_value : ℚ)
      (url : String) (transport : Except Unit Unit)

/-- Whether a call is an invocation of the notify capability. -/
def ToolCall.isNotify : ToolCall → Bool
  | .notify _ _ _ _ _ => true
  | _ => false

/-- The textual result a capability hands back to the decision process.
The estimate capability's JSON serialization of its record is modelled as
the record itself (the serialization is a faithful wrapper not modelled
character by character). -/
inductive ToolResult where
  | text (s : String)
  | serializedEstimate (r : EstimateResult)
deriving DecidableEq, Repr

/-- Execute one capability invocation: the state afterwards, and either
the result handed back to the decision process or a propagated
collaborator error. -/
def step (st : PlannerState) : ToolCall → PlannerState × Except Unit ToolResult
  | .scan r =>
    let (st', res) := scan_the_internet_for_bargains st r
    (st', res.map ToolResult.text)
  | .estimate d e1 e2 =>
    match e1 with
    | .error e => (st, .error e)
    | .ok v1 =>
      match e2 with
      | .error e => (st, .error e)
      | .ok v2 => (st, .ok (.serializedEstimate (estimate_true_value d v1 v2)))
  | .notify d p v u tr =>
    let (st', res, _) := notify_user_of_deal st d p v u tr
    (st', res.map ToolResult.text)

/-- Drive the decision process's chosen invocations in order; stop at the
first propagated error, keeping the mutations made up to that point. -/
def runScript (st : PlannerState) : List ToolCall → PlannerState × Except Unit Unit
  | [] => (st, .ok ())
  | c :: rest =>
    match step st c with
    | (st', .error e) => (st', .error e)
    | (st', .ok _) => runScript st' rest

/-- `plan`: store the memory, reset the opportunity slot, drive the run,
and return the (possibly absent) captured opportunity, or propagate the
error.  The returned pair also exposes the planner's state after the run. -/
def plan (st : PlannerState) (memory : List String) (script : List ToolCall) :
    PlannerState × Except Unit (Option Opportunity) :=
  let st1 : PlannerState := { st with memory := memory, opportunity := none }
  match runScript st1 script with
  | (st2, .error e) => (st2, .error e)
  | (st2, .ok _) => (st2, .ok st2.opportunity)

/-! ## Supporting lemmas -/

lemma matchFloatAt_subset {s m : List Char} (h : matchFloatAt s = some m) :
    m ⊆ s := by
  simp only [matchFloatAt] at h
  split at h
  case h_2 => exact absurd h (by simp)
  case h_1 s3 heq =>
    split at h
    · exact absurd h (by simp)
    · have hm := (Option.some.injEq _ _ ▸ h :
        (if (s.head? = some '-' ∨ s.head? = some '+') then s.take 1 else []) ++
          (if (s.head? = some '-' ∨ s.head? = some '+') then s.tail else
            s).takeWhile Char.isDigit ++ '.' :: s3.takeWhile Char.isDigit = m)
      have hs1 : (if (s.head? = some '-' ∨ s.head? = some '+') then s.tail else s) ⊆ s := by
        split
        · exact (List.tail_sublist s).subset
        · exact fun a ha => ha
      intro a ha
      rw [← hm] at ha
      rcases List.mem_append.mp ha with ha1 | ha2
      · rcases List.mem_append.mp ha1 with hsgn | hds
        · revert hsgn
          split
          · exact fun hsgn => (List.take_sublist 1 s).subset hsgn
          · exact fun hsgn => absurd hsgn (List.not_mem_nil a)
        · exact hs1 ((List.takeWhile_sublist _).subset hds)
      · have hdrop : '.' :: s3 ⊆ s := by
          rw [← heq]
          exact fun b hb => hs1 ((List.dropWhile_sublist _).subset hb)
        rcases List.mem_cons.mp ha2 with hdot | hfs
        · exact hdrop (hdot ▸ List.mem_cons_self '.' s3)
        · exact hdrop (List.mem_cons_of_mem '.' ((List.takeWhile_sublist _).subset hfs))

lemma matchIntAt_subset {s m : List Char} (h : matchIntAt s = some m) : m ⊆ s := by
  cases s with
  | nil => exact absurd h (by simp [matchIntAt])
  | cons c rest =>
    simp only [matchIntAt] at h
    split at h
    · have hm := Option.some.injEq _ _ ▸ h
      rw [← hm]
      exact (List.takeWhile_sublist _).subset
    · exact absurd h (by simp)

lemma searchNumber_subset : ∀ {s m : List Char}, searchNumber s = some m → m ⊆ s := by
  intro s
  induction s with
  | nil => intro m h; exact absurd h (by simp [searchNumber])
  | cons c rest ih =>
    intro m h
    simp only [searchNumber] at h
    rcases hf : matchFloatAt (c :: rest) with _ | mf
    · rw [hf] at h
      rcases hi : matchIntAt (c :: rest) with _ | mi
      · rw [hi] at h
        exact fun a ha => List.mem_cons_of_mem c (ih h ha)
      · rw [hi] at h
        have := Option.some.injEq _ _ ▸ h
        rw [← this]
        exact matchIntAt_subset hi
    · rw [hf] at h
      have := Option.some.injEq _ _ ▸ h
      rw [← this]
      exact matchFloatAt_subset hf

lemma parseToken_nonneg {t : List Char} (ht : t.head? ≠ some '-') :
    0 ≤ parseToken t := by
  simp only [parseToken]
  split
  · rw [if_neg ht, one_mul]
    positivity
  · rw [if_neg ht, one_mul]
    positivity

lemma get_price_nonneg {s : String} (hm : '-' ∉ s.data) :
    0 ≤ FrontierAgent.get_price s := by
  have hclean : '-' ∉ cleanChars s := fun hc => hm (List.mem_of_mem_filter hc)
  rcases hsn : searchNumber (cleanChars s) with _ | t
  · rw [FrontierAgent.get_price, hsn]
  · rw [FrontierAgent.get_price, hsn]
    apply parseToken_nonneg
    intro hhead
    apply hclean
    apply searchNumber_subset hsn
    cases t with
    | nil => exact absurd hhead (by simp)
    | cons a t' =>
      have : a = '-' := by simpa using hhead
      rw [this] at *
      exact List.mem_cons_self '-' t'

/-! Planner run lemmas. -/

/-- Invariant: any recorded opportunity has `discount = estimate - deal.price`. -/
def goodOpp : Option Opportunity → Prop
  | none => True
  | some opp => opp.discount = opp.estimate - opp.deal.price

lemma runScript_cons (st : PlannerState) (c : ToolCall) (rest : List ToolCall) :
    runScript st (c :: rest) =
      match step st c with
      | (st', .error e) => (st', .error e)
      | (st', .ok _) => runScript st' rest := rfl

lemma plan_eq_run (st : PlannerState) (mem : List String) (script : List ToolCall) :
    plan st mem script =
      match runScript ⟨mem, none⟩ script with
      | (st2, .error e) => (st2, .error e)
      | (st2, .ok _) => (st2, .ok st2.opportunity) := rfl

lemma step_goodOpp (st : PlannerState) (c : ToolCall)
    (h : goodOpp st.opportunity) : goodOpp (step st c).1.opportunity := by
  cases c with
  | scan r =>
    cases r with
    | error e => exact h
    | ok o => cases o <;> exact h
  | estimate d e1 e2 =>
    cases e1 with
    | error e => exact h
    | ok v1 =>
      cases e2 with
      | error e => exact h
      | ok v2 => exact h
  | notify d p v u tr =>
    rcases hopp : st.opportunity with _ | o
    · cases tr with
      | error e =>
        simpa only [step, notify_user_of_deal, hopp] using h
      | ok u' =>
        simp only [step, notify_user_of_deal, hopp]
        show (v : ℚ) - p = v - p
        rfl
    · simpa only [step, notify_user_of_deal, hopp] using h

lemma step_fst_of_error (st : PlannerState) (c : ToolCall)
    (h : (step st c).2 = Except.error ()) : (step st c).1 = st := by
  cases c with
  | scan r =>
    cases r with
    | error e => rfl
    | ok o => cases o <;> rfl
  | estimate d e1 e2 =>
    cases e1 with
    | error e => rfl
    | ok v1 =>
      cases e2 with
      | error e => rfl
      | ok v2 => rfl
  | notify d p v u tr =>
    rcases hopp : st.opportunity with _ | o
    · cases tr with
      | error e => simp only [step, notify_user_of_deal, hopp]
      | ok u' =>
        exfalso
        simp [step, notify_user_of_deal, hopp, Except.map] at h
    · simp only [step, notify_user_of_deal, hopp]

lemma step_fst_of_not_notify (st : PlannerState) (c : ToolCall)
    (h : c.isNotify = false) : (step st c).1 = st := by
  cases c with
  | scan r =>
    cases r with
    | error e => rfl
    | ok o => cases o <;> rfl
  | estimate d e1 e2 =>
    cases e1 with
    | error e => rfl
    | ok v1 =>
      cases e2 with
      | error e => rfl
      | ok v2 => rfl
  | notify d p v u tr => simp [ToolCall.isNotify] at h

lemma runScript_goodOpp : ∀ (script : List ToolCall) (st : PlannerState),
    goodOpp st.opportunity → goodOpp (runScript st script).1.opportunity
  | [], st, h => h
  | c :: rest, st, h => by
    have h1 := step_goodOpp st c h
    rcases hs : step st c with ⟨st', r⟩
    rw [hs] at h1
    cases r with
    | error e =>
      rw [runScript_cons, hs]
      exact h1
    | ok res =>
      rw [runScript_cons, hs]
      exact runScript_goodOpp rest st' h1

lemma runScript_fst_of_no_notify : ∀ (script : List ToolCall) (st : PlannerState),
    (∀ c ∈ script, c.isNotify = false) → (runScript st script).1 = st
  | [], st, _ => rfl
  | c :: rest, st, h => by
    have hc : c.isNotify = false := h c (List.mem_cons_self c rest)
    have hrest : ∀ a ∈ rest, a.isNotify = false :=
      fun a ha => h a (List.mem_cons_of_mem c ha)
    have hst : (step st c).1 = st := step_fst_of_not_notify st c hc
    rcases hs : step st c with ⟨st', r⟩
    rw [hs] at hst
    cases r with
    | error e =>
      rw [runScript_cons, hs]
      exact hst
    | ok res =>
      rw [runScript_cons, hs]
      rw [runScript_fst_of_no_notify rest st' hrest]
      exact hst

lemma runScript_append_ok : ∀ (pre post : List ToolCall) (st st1 : PlannerState),
    runScript st pre = (st1, .ok ()) →
    runScript st (pre ++ post) = runScript st1 post
  | [], post, st, st1, h => by
    have h1 : st = st1 := congrArg Prod.fst h
    rw [List.nil_append, h1]
  | c :: pre, post, st, st1, h => by
    rw [List.cons_append, runScript_cons]
    rcases hs : step st c with ⟨st', r⟩
    rw [runScript_cons, hs] at h
    cases r with
    | error e => exact absurd (congrArg Prod.snd h) (by simp)
    | ok res => exact runScript_append_ok pre post st' st1 h

/-! ## Claim theorems -/

/-- C3: for every description, the numeral in the record returned by the
`estimate_true_value` capability equals the arithmetic mean
`(estimate1 + estimate2) / 2` of the two independent estimates, and in
particular it is `0` when both estimators return `0`. -/
theorem estimate_true_value_is_mean :
    (∀ (d : String) (e1 e2 : ℚ),
      (estimate_true_value d e1 e2).estimated_true_value = (e1 + e2) / 2) ∧
    (∀ d : String, (estimate_true_value d 0 0).estimated_true_value = 0) := by
  constructor
  · intro d e1 e2
    rfl
  · intro d
    show ((0 : ℚ) + 0) / 2 = 0
    norm_num

/-- C4: `get_price` strips `$` and `,`, extracts the first numeral matched
by `[-+]?\d*\.\d+|\d+`, returns `0.0` when no numeral matches, and on the
spec's three concrete examples returns `1234.50`, `0`, and `999`. -/
theorem get_price_parses_first_numeral :
    (∀ s : String, searchNumber (cleanChars s) = none →
      FrontierAgent.get_price s = 0) ∧
    (∀ (s : String) (t : List Char), searchNumber (cleanChars s) = some t →
      FrontierAgent.get_price s = parseToken t) ∧
    FrontierAgent.get_price "$1,234.50" = 1234.50 ∧
    FrontierAgent.get_price "no digits here" = 0 ∧
    FrontierAgent.get_price "Price is $999" = 999 := by
  refine ⟨?_, ?_, ?_, ?_, ?_⟩
  · intro s h
    rw [FrontierAgent.get_price, h]
  · intro s t h
    rw [FrontierAgent.get_price, h]
  · have h : searchNumber (cleanChars "$1,234.50") =
        some ['1', '2', '3', '4', '.', '5', '0'] := by decide
    rw [FrontierAgent.get_price, h]
    show (1 : ℚ) * (((1234 : ℕ) : ℚ) + ((50 : ℕ) : ℚ) / (10 : ℚ) ^ (2 : ℕ)) = 1234.50
    norm_num
  · have h : searchNumber (cleanChars "no digits here") = none := by decide
    rw [FrontierAgent.get_price, h]
  · have h : searchNumber (cleanChars "Price is $999") = some ['9', '9', '9'] := by
      decide
    rw [FrontierAgent.get_price, h]
    show (1 : ℚ) * ((999 : ℕ) : ℚ) = 999
    norm_num

/-- Witness for C4 at the concrete input `"no digits here"`. -/
theorem get_price_parses_first_numeral_witness :
    FrontierAgent.get_price "no digits here" = 0 :=
  get_price_parses_first_numeral.1 "no digits here" (by decide)

/-- C2: once an `Opportunity` is captured, any further `notify_user_of_deal`
invocation, with any arguments and any transport oracle, returns the same
success result `"notification sent"`, does not invoke the transport, and
leaves the planner state (hence the recorded `Opportunity`) unchanged. -/
theorem notify_after_capture_noop (st : PlannerState) (opp : Opportunity)
    (d : String) (p v : ℚ) (u : String) (tr : Except Unit Unit)
    (h : st.opportunity = some opp) :
    notify_user_of_deal st d p v u tr = (st, .ok "notification sent", false) := by
  simp only [notify_user_of_deal, h]

/-- Witness for C2: a state that already captured an opportunity, a second
invocation with entirely different arguments. -/
theorem notify_after_capture_noop_witness :
    notify_user_of_deal
        ⟨["http://x"], some ⟨⟨"Widget X", 20, "http://x"⟩, 50, 30⟩⟩
        "Other" 5 7 "http://y" (.error ()) =
      (⟨["http://x"], some ⟨⟨"Widget X", 20, "http://x"⟩, 50, 30⟩⟩,
        .ok "notification sent", false) :=
  notify_after_capture_noop _ ⟨⟨"Widget X", 20, "http://x"⟩, 50, 30⟩
    "Other" 5 7 "http://y" (.error ()) rfl

/-- C10: if the notification transport raises on an invocation made while
no `Opportunity` is recorded (the first effective invocation of a run), the
error propagates and the planner state is unchanged: the `Opportunity`
slot stays `none`, because the transport is invoked before the `Deal` and
`Opportunity` are constructed and stored. -/
theorem notify_transport_error_records_nothing (st : PlannerState)
    (d : String) (p v : ℚ) (u : String) (h : st.opportunity = none) :
    notify_user_of_deal st d p v u (.error ()) = (st, .error (), true) := by
  simp only [notify_user_of_deal, h]

/-- Witness for C10 at a concrete fresh run state. -/
theorem notify_transport_error_records_nothing_witness :
    notify_user_of_deal ⟨[], none⟩ "Widget X" 20 50 "http://x" (.error ()) =
      (⟨[], none⟩, .error (), true) :=
  notify_transport_error_records_nothing ⟨[], none⟩ "Widget X" 20 50 "http://x" rfl

/-- C6: `plan` resets the `Opportunity` slot to `none` at the start of the
run, before any capability is invoked: its behaviour is independent of the
state left by the previous run (captured, none, or raised), and a run with
no invocations returns `none`. -/
theorem plan_resets_opportunity_slot (st st' : PlannerState)
    (mem : List String) (script : List ToolCall) :
    plan st mem script = plan st' mem script ∧ (plan st mem []).2 = .ok none := by
  constructor
  · rfl
  · rfl

/-- C1: whenever a run of `plan` returns an `Opportunity` (rather than
`none`), that opportunity satisfies `discount = estimate - deal.price`
exactly. -/
theorem plan_opportunity_discount (st : PlannerState) (mem : List String)
    (script : List ToolCall) (st' : PlannerState) (opp : Opportunity)
    (h : plan st mem script = (st', .ok (some opp))) :
    opp.discount = opp.estimate - opp.deal.price := by
  have hg : goodOpp (runScript (⟨mem, none⟩ : PlannerState) script).1.opportunity :=
    runScript_goodOpp script ⟨mem, none⟩ trivial
  rcases hr : runScript (⟨mem, none⟩ : PlannerState) script with ⟨st2, r⟩
  rw [hr] at hg
  rw [plan_eq_run, hr] at h
  cases r with
  | error e => exact absurd (congrArg Prod.snd h) (by simp)
  | ok res =>
    have h2 : Except.ok (ε := Unit) st2.opportunity = .ok (some opp) :=
      congrArg Prod.snd h
    have h3 : st2.opportunity = some opp := by
      injection h2
    rw [h3] at hg
    exact hg

/-- Witness for C1: the spec's end-to-end scenario, where notify is called
with price 20 and estimate 50, yielding discount 30 = 50 - 20. -/
theorem plan_opportunity_discount_witness :
    (⟨⟨"Widget X", 20, "http://x"⟩, 50, 50 - 20⟩ : Opportunity).discount =
      (⟨⟨"Widget X", 20, "http://x"⟩, 50, 50 - 20⟩ : Opportunity).estimate -
        (⟨⟨"Widget X", 20, "http://x"⟩, 50, 50 - 20⟩ : Opportunity).deal.price :=
  plan_opportunity_discount ⟨[], none⟩ []
    [.notify "Widget X" 20 50 "http://x" (.ok ())] _
    ⟨⟨"Widget X", 20, "http://x"⟩, 50, 50 - 20⟩ rfl

/-- C5 counterexample: the Valuation Estimator's contract
`price(description) -> positive_real` is violated when the completion
service's reply contains no numeral: `price` then returns `0.0`, which is
not positive. -/
theorem price_not_always_positive :
    FrontierAgent.price "no digits here" = 0 ∧
    ¬ (0 < FrontierAgent.price "no digits here") := by
  have h : searchNumber (cleanChars "no digits here") = none := by decide
  have h0 : FrontierAgent.price "no digits here" = 0 := by
    show FrontierAgent.get_price "no digits here" = 0
    rw [FrontierAgent.get_price, h]
  exact ⟨h0, by rw [h0]; exact lt_irrefl 0⟩

/-- C5 amended: `price` returns a nonnegative value whenever the reply
contains no minus sign, and returns exactly `0.0` (not a positive number)
when the reply contains no numeral. -/
theorem price_nonneg_without_minus (reply : String) :
    (('-' ∉ reply.data) → 0 ≤ FrontierAgent.price reply) ∧
    (searchNumber (cleanChars reply) = none → FrontierAgent.price reply = 0) := by
  constructor
  · intro hm
    exact get_price_nonneg hm
  · intro h
    show FrontierAgent.get_price reply = 0
    rw [FrontierAgent.get_price, h]

/-- Witness for C5 amended, at the concrete reply `"Price is $999"`. -/
theorem price_nonneg_without_minus_witness :
    0 ≤ FrontierAgent.price "Price is $999" :=
  (price_nonneg_without_minus "Price is $999").1 (by decide)

/-- C7 counterexample: a run in which `notify` first succeeds and a later
collaborator (here the frontier estimator) fails: the error does propagate
out of `plan`, but the run's `Opportunity` slot is NOT left at `none` — it
still holds the opportunity captured by the earlier successful notify. -/
theorem plan_error_keeps_captured_opportunity :
    (plan ⟨[], none⟩ []
      [ToolCall.notify "w" 20 50 "u" (.ok ()),
       ToolCall.estimate "d" (.error ()) (.ok 0)]).2 = Except.error () ∧
    (plan ⟨[], none⟩ []
      [ToolCall.notify "w" 20 50 "u" (.ok ()),
       ToolCall.estimate "d" (.error ()) (.ok 0)]).1.opportunity =
        some ⟨⟨"w", 20, "u"⟩, 50, 50 - 20⟩ ∧
    (plan ⟨[], none⟩ []
      [ToolCall.notify "w" 20 50 "u" (.ok ()),
       ToolCall.estimate "d" (.error ()) (.ok 0)]).1.opportunity ≠ none := by
  refine ⟨rfl, rfl, ?_⟩
  intro h
  rw [show (plan ⟨[], none⟩ []
      [ToolCall.notify "w" 20 50 "u" (.ok ()),
       ToolCall.estimate "d" (.error ()) (.ok 0)]).1.opportunity =
        some ⟨⟨"w", 20, "u"⟩, 50, 50 - 20⟩ from rfl] at h
  exact Option.some_ne_none _ h

/-- C7 amended: when a collaborator fails at any point of the run, the
failure is not caught: `plan` ends in that raised error; and the run's
`Opportunity` slot is left at `none` provided no notify invocation
occurred before the failure. -/
theorem plan_collaborator_error_propagates (st : PlannerState)
    (mem : List String) (pre : List ToolCall) (c : ToolCall)
    (post : List ToolCall) (st1 : PlannerState)
    (hpre : runScript ⟨mem, none⟩ pre = (st1, .ok ()))
    (hc : (step st1 c).2 = .error ()) :
    (plan st mem (pre ++ c :: post)).2 = .error () ∧
    ((∀ a ∈ pre, a.isNotify = false) →
      (plan st mem (pre ++ c :: post)).1.opportunity = none) := by
  have hst : (step st1 c).1 = st1 := step_fst_of_error st1 c hc
  have hrun : runScript (⟨mem, none⟩ : PlannerState) (pre ++ c :: post) =
      (st1, .error ()) := by
    rw [runScript_append_ok pre (c :: post) _ st1 hpre, runScript_cons]
    rcases hs : step st1 c with ⟨st2, r⟩
    rw [hs] at hc hst
    have hr : r = Except.error () := hc
    have hst2 : st2 = st1 := hst
    rw [hr, hst2]
  constructor
  · rw [plan_eq_run, hrun]
  · intro hnn
    have h1 : st1 = ⟨mem, none⟩ := by
      have h2 := runScript_fst_of_no_notify pre ⟨mem, none⟩ hnn
      rw [hpre] at h2
      exact h2
    rw [plan_eq_run, hrun, h1]

/-- Witness for C7 amended: a run whose single capability invocation is a
scan whose scanner raises. -/
theorem plan_collaborator_error_propagates_witness :
    (plan ⟨[], none⟩ [] [ToolCall.scan (.error ())]).2 = .error () ∧
    (plan ⟨[], none⟩ [] [ToolCall.scan (.error ())]).1.opportunity = none := by
  have h := plan_collaborator_error_propagates ⟨[], none⟩ [] []
    (ToolCall.scan (.error ())) [] ⟨[], none⟩ rfl rfl
  exact ⟨h.1, h.2 (by decide)⟩

/-- C8: when the scanner yields nothing, the scan capability returns the
empty-string sentinel rather than raising; and a run that completes
without ever invoking notify returns `none` from `plan`. -/
theorem scan_empty_sentinel_and_plan_none :
    (∀ st : PlannerState,
      scan_the_internet_for_bargains st (.ok none) = (st, .ok "")) ∧
    (∀ (st st1 : PlannerState) (mem : List String) (script : List ToolCall),
      (∀ c ∈ script, c.isNotify = false) →
      runScript ⟨mem, none⟩ script = (st1, .ok ()) →
      plan st mem script = (st1, .ok none)) := by
  constructor
  · intro st
    rfl
  · intro st st1 mem script hnn hrun
    have h1 : st1 = ⟨mem, none⟩ := by
      have h2 := runScript_fst_of_no_notify script ⟨mem, none⟩ hnn
      rw [hrun] at h2
      exact h2
    rw [plan_eq_run, hrun, h1]

/-- Witness for C8: a previous run had captured an opportunity; the new
run's scanner yields nothing, the decision process stops after the single
scan call, and `plan` returns `none`. -/
theorem scan_empty_sentinel_and_plan_none_witness :
    plan ⟨["http://x"], some ⟨⟨"Widget X", 20, "http://x"⟩, 50, 30⟩⟩ []
      [ToolCall.scan (.ok none)] = (⟨[], none⟩, .ok none) :=
  scan_empty_sentinel_and_plan_none.2 _ ⟨[], none⟩ [] [ToolCall.scan (.ok none)]
    (by decide) rfl

end Tech2AI
